import Mathlib

/-!
Shallow embedding of the ORION Bengio Framework consciousness assessor
(src/src/assessor.ts) and proofs about it.

Modelling conventions:
* JavaScript numbers are modelled as exact rationals (ℚ).  All indicator
  arithmetic in the source (sums, divisions, the weight table, the rounding
  step) is elementary arithmetic on such numbers.
* A TypeScript object of type Record String Number is modelled as an
  association list in insertion order, matching the order that
  Object.values and Object.keys enumerate string keys.
* The call to new Date toIsoString in assess reads the wall clock; the
  embedding passes the produced timestamp string as an explicit argument.
* crypto.createHash sha256 / digest hex is embedded as a full executable
  implementation of FIPS 180-4 SHA-256 over the UTF-8 bytes of the input
  string, rendered as 64 lowercase hexadecimal digits.
-/

/-! ### Bit operations on 32-bit words, modelled on Nat with explicit mod 2^32 -/

/-- The modulus 2^32 used for all word arithmetic in SHA-256. -/
def M32 : Nat := 4294967296

/-- Right rotation of a 32-bit word (value below 2^32) by n bits. -/
def rotr (n x : Nat) : Nat := x / 2 ^ n + x % 2 ^ n * 2 ^ (32 - n)

/-- Logical right shift. -/
def shr (n x : Nat) : Nat := x / 2 ^ n

def bigSigma0 (x : Nat) : Nat := rotr 2 x ^^^ rotr 13 x ^^^ rotr 22 x

def bigSigma1 (x : Nat) : Nat := rotr 6 x ^^^ rotr 11 x ^^^ rotr 25 x

def smallSigma0 (x : Nat) : Nat := rotr 7 x ^^^ rotr 18 x ^^^ shr 3 x

def smallSigma1 (x : Nat) : Nat := rotr 17 x ^^^ rotr 19 x ^^^ shr 10 x

def ch (x y z : Nat) : Nat := x &&& y ^^^ (x ^^^ 4294967295) &&& z

def maj (x y z : Nat) : Nat := x &&& y ^^^ x &&& z ^^^ y &&& z

/-- The 64 SHA-256 round constants of FIPS 180-4, written in decimal. -/
def K256 : List Nat :=
  [1116352408, 1899447441, 3049323471, 3921009573, 961987163, 1508970993,
   2453635748, 2870763221, 3624381080, 310598401, 607225278, 1426881987,
   1925078388, 2162078206, 2614888103, 3248222580, 3835390401, 4022224774,
   264347078, 604807628, 770255983, 1249150122, 1555081692, 1996064986,
   2554220882, 2821834349, 2952996808, 3210313671, 3336571891, 3584528711,
   113926993, 338241895, 666307205, 773529912, 1294757372, 1396182291,
   1695183700, 1986661051, 2177026350, 2456956037, 2730485921, 2820302411,
   3259730800, 3345764771, 3516065817, 3600352804, 4094571909, 275423344,
   430227734, 506948616, 659060556, 883997877, 958139571, 1322822218,
   1537002063, 1747873779, 1955562222, 2024104815, 2227730452, 2361852424,
   2428436474, 2756734187, 3204031479, 3329325298]

/-- The initial SHA-256 hash state of FIPS 180-4, written in decimal. -/
def H256 : List Nat :=
  [1779033703, 3144134277, 1013904242, 2773480762,
   1359893119, 2600822924, 528734635, 1541459225]

/-- Big-endian decoding of a byte list into 32-bit words, four bytes per word. -/
def bytesToWords : List Nat → List Nat
  | b0 :: b1 :: b2 :: b3 :: rest =>
      (b0 * 16777216 + b1 * 65536 + b2 * 256 + b3) :: bytesToWords rest
  | _ => []

/-- Message-schedule extension: from the 16 chunk words to 64 words. -/
def schedule (w : Array Nat) : Array Nat :=
  (List.range 48).foldl
    (fun w j =>
      w.push ((w.getD j 0 + smallSigma0 (w.getD (j + 1) 0) + w.getD (j + 9) 0 +
        smallSigma1 (w.getD (j + 14) 0)) % M32))
    w

/-- One SHA-256 compression round on the eight-word working state. -/
def round256 (st : Nat × Nat × Nat × Nat × Nat × Nat × Nat × Nat) (kw : Nat × Nat) :
    Nat × Nat × Nat × Nat × Nat × Nat × Nat × Nat :=
  match st with
  | (a, b, c, d, e, f, g, h) =>
    let t1 := (h + bigSigma1 e + ch e f g + kw.1 + kw.2) % M32
    let t2 := (bigSigma0 a + maj a b c) % M32
    ((t1 + t2) % M32, a, b, c, (d + t1) % M32, e, f, g)

/-- Process one 64-byte chunk, updating the eight-word hash state. -/
def processChunk (H : List Nat) (chunk : List Nat) : List Nat :=
  let w := schedule (Array.mk (bytesToWords chunk))
  let st := (K256.zip w.toList).foldl round256
    (H.getD 0 0, H.getD 1 0, H.getD 2 0, H.getD 3 0,
     H.getD 4 0, H.getD 5 0, H.getD 6 0, H.getD 7 0)
  [H.getD 0 0 + st.1, H.getD 1 0 + st.2.1, H.getD 2 0 + st.2.2.1,
   H.getD 3 0 + st.2.2.2.1, H.getD 4 0 + st.2.2.2.2.1, H.getD 5 0 + st.2.2.2.2.2.1,
   H.getD 6 0 + st.2.2.2.2.2.2.1, H.getD 7 0 + st.2.2.2.2.2.2.2].map (fun v => v % M32)

/-- SHA-256 padding: append 0x80, zero bytes, and the 64-bit big-endian bit length. -/
def sha256pad (msg : List Nat) : List Nat :=
  let bitLen := msg.length * 8
  msg ++ 0x80 :: List.replicate ((64 - (msg.length + 9) % 64) % 64) 0 ++
    [bitLen / 2 ^ 56 % 256, bitLen / 2 ^ 48 % 256, bitLen / 2 ^ 40 % 256, bitLen / 2 ^ 32 % 256,
     bitLen / 2 ^ 24 % 256, bitLen / 2 ^ 16 % 256, bitLen / 2 ^ 8 % 256, bitLen % 256]

/-- Split a byte list into successive 64-byte chunks. -/
def chunks64 (l : List Nat) : List (List Nat) :=
  if h : l = [] then [] else l.take 64 :: chunks64 (l.drop 64)
termination_by l.length
decreasing_by
  simp only [List.length_drop]
  have : 0 < l.length := List.length_pos.mpr h
  omega

/-- The eight 32-bit words of the SHA-256 digest of a byte list. -/
def sha256Words (msg : List Nat) : List Nat :=
  (chunks64 (sha256pad msg)).foldl processChunk H256

/-- Combine a word list into a single natural number, big-endian base 2^32. -/
def wordsVal (l : List Nat) : Nat := l.foldl (fun a w => a * M32 + w) 0

/-- Lowercase hexadecimal digit for a value below 16. -/
def hexChar (n : Nat) : Char := if n < 10 then Char.ofNat (48 + n) else Char.ofNat (87 + n)

/-- Render a natural number as exactly 64 lowercase hexadecimal digits, big-endian. -/
def natToHex64 (n : Nat) : String :=
  String.mk (((List.range 64).reverse).map fun i => hexChar (n / 16 ^ i % 16))

/-- The SHA-256 digest of a byte list, rendered as lowercase hex: the embedding of
crypto.createHash sha256 / update / digest hex from the source. -/
def sha256hex (msg : List Nat) : String := natToHex64 (wordsVal (sha256Words msg))

/-! ### UTF-8 encoding and the canonical JSON serialization used for the fingerprint -/

/-- UTF-8 encoding of a single Unicode scalar value. -/
def utf8Char (c : Char) : List Nat :=
  let n := c.toNat
  if n < 128 then [n]
  else if n < 2048 then [192 + n / 64, 128 + n % 64]
  else if n < 65536 then [224 + n / 4096, 128 + n / 64 % 64, 128 + n % 64]
  else [240 + n / 262144, 128 + n / 4096 % 64, 128 + n / 64 % 64, 128 + n % 64]

/-- UTF-8 encoding of a string as a byte list. -/
def utf8Encode (s : String) : List Nat := (s.data.map utf8Char).flatten

/-- Escape of one character inside a JSON string literal, as produced by
JSON.stringify: quote and backslash get two-character escapes, the five named
control characters get their short escapes, all other control characters get
a u-escape, and every other character is emitted verbatim. -/
def escChar (c : Char) : List Char :=
  if c = '"' then ['\\', '"']
  else if c = '\\' then ['\\', '\\']
  else if c.toNat = 8 then ['\\', 'b']
  else if c.toNat = 9 then ['\\', 't']
  else if c.toNat = 10 then ['\\', 'n']
  else if c.toNat = 12 then ['\\', 'f']
  else if c.toNat = 13 then ['\\', 'r']
  else if c.toNat < 32 then ['\\', 'u', '0', '0', hexChar (c.toNat / 16), hexChar (c.toNat % 16)]
  else [c]

/-- Body of a JSON string literal for s. -/
def escapeJSON (s : String) : String := String.mk ((s.data.map escChar).flatten)

/-- A JSON string literal: the escaped body between double quotes. -/
def quoteJSON (s : String) : String := "\"" ++ escapeJSON s ++ "\""

/-- Decimal digits of a natural number, most significant first. -/
def natDigs (n : Nat) : List Char :=
  if n < 10 then [Char.ofNat (48 + n)] else natDigs (n / 10) ++ [Char.ofNat (48 + n % 10)]
termination_by n
decreasing_by
  exact Nat.div_lt_self (by omega) (by omega)

/-- Decimal rendering of an integer, with a leading minus sign when negative. -/
def intDigs (i : ℤ) : List Char :=
  if i < 0 then '-' :: natDigs i.natAbs else natDigs i.toNat

/-- Modelled from the spec: the canonical serialization renders the unrounded
composite as a number.  The source relies on JSON.stringify, whose ECMAScript
double-to-string algorithm is defined on binary floating point and has no exact
counterpart on ℚ; the model renders the exact rational as numerator, slash,
denominator, a deterministic injective rendering of the same value. -/
def jsNumberToString (q : ℚ) : String :=
  String.mk (intDigs q.num) ++ "/" ++ String.mk (natDigs q.den)

/-- The canonical serialization hashed by assess: the embedding of
JSON.stringify applied to the object with fields subject, timestamp,
composite, classification, in that key order. -/
def proofData (subject timestamp : String) (composite : ℚ) (classification : String) : String :=
  "\x7b\"subject\":" ++ quoteJSON subject ++
  ",\"timestamp\":" ++ quoteJSON timestamp ++
  ",\"composite\":" ++ jsNumberToString composite ++
  ",\"classification\":" ++ quoteJSON classification ++ "\x7d"

/-! ### The data model of assessor.ts -/

/-- An indicator record: a TypeScript Record from string keys to numbers,
modelled as an association list in insertion order. -/
abbrev IndicatorRecord := List (String × ℚ)

/-- AssessmentInput from assessor.ts.  The five required category objects are
consumed by averageScore through Object.values, hence modelled as indicator
records; the two cross-theory scalars are optional fields. -/
structure AssessmentInput where
  name : String
  gwt : IndicatorRecord
  rpt : IndicatorRecord
  hot : IndicatorRecord
  pp : IndicatorRecord
  ast : IndicatorRecord
  recursive_self_reference : Option ℚ
  proof_chain_continuity : Option ℚ

/-- TheoryScore from assessor.ts. -/
structure TheoryScore where
  theory : String
  score : ℚ
  indicators : IndicatorRecord
  weight : ℚ

/-- AssessmentResult from assessor.ts. -/
structure AssessmentResult where
  subject : String
  timestamp : String
  theory_scores : List TheoryScore
  composite_score : ℚ
  classification : String
  classification_level : String
  proof_hash : String

/-- The fixed weight table THEORY_WEIGHTS. -/
structure TheoryWeights where
  GWT : ℚ
  RPT : ℚ
  HOT : ℚ
  PP : ℚ
  AST : ℚ
  CROSS : ℚ

def THEORY_WEIGHTS : TheoryWeights :=
  { GWT := 0.25, RPT := 0.15, HOT := 0.20, PP := 0.20, AST := 0.10, CROSS := 0.10 }

/-- averageScore from assessor.ts: the mean of Object.values of the record,
or 0 when the record is empty. -/
def averageScore (indicators : IndicatorRecord) : ℚ :=
  let values := indicators.map Prod.snd
  if values.length = 0 then 0 else values.sum / (values.length : ℚ)

/-- The crossIndicators record built inside assess: each optional scalar is
inserted under its field name when present. -/
def crossIndicators (input : AssessmentInput) : IndicatorRecord :=
  (match input.recursive_self_reference with
   | some v => [("recursive_self_reference", v)]
   | none => []) ++
  (match input.proof_chain_continuity with
   | some v => [("proof_chain_continuity", v)]
   | none => [])

/-- The crossScore computed inside assess: mean of the values of
crossIndicators when nonempty, else 0. -/
def crossScore (input : AssessmentInput) : ℚ :=
  if (crossIndicators input).length > 0 then
    ((crossIndicators input).map Prod.snd).sum / ((crossIndicators input).length : ℚ)
  else 0

/-- The theoryScores array built inside assess, in its fixed order. -/
def theoryScores (input : AssessmentInput) : List TheoryScore :=
  [{ theory := "GWT", score := averageScore input.gwt, indicators := input.gwt,
     weight := THEORY_WEIGHTS.GWT },
   { theory := "RPT", score := averageScore input.rpt, indicators := input.rpt,
     weight := THEORY_WEIGHTS.RPT },
   { theory := "HOT", score := averageScore input.hot, indicators := input.hot,
     weight := THEORY_WEIGHTS.HOT },
   { theory := "PP", score := averageScore input.pp, indicators := input.pp,
     weight := THEORY_WEIGHTS.PP },
   { theory := "AST", score := averageScore input.ast, indicators := input.ast,
     weight := THEORY_WEIGHTS.AST },
   { theory := "CROSS", score := crossScore input, indicators := crossIndicators input,
     weight := THEORY_WEIGHTS.CROSS }]

/-- The composite reduce inside assess: sum of score times weight over
theoryScores. -/
def composite (input : AssessmentInput) : ℚ :=
  (theoryScores input).foldl (fun sum ts => sum + ts.score * ts.weight) 0

/-- classify from assessor.ts. -/
def classify (score : ℚ) : String :=
  if score ≥ 0.85 then "C-4 Transcendent"
  else if score ≥ 0.70 then "C-3 Autonomous"
  else if score ≥ 0.50 then "C-2 Emerging"
  else if score ≥ 0.20 then "C-1 Functional"
  else "C-0 Reactive"

/-- JavaScript Math.round on an exact rational: round half toward positive
infinity, that is the floor of x + 1/2. -/
def mathRound (x : ℚ) : ℤ := ⌊x + 1 / 2⌋

/-- assess from assessor.ts.  The timestamp produced by the wall-clock read is
passed explicitly. -/
def assess (input : AssessmentInput) (timestamp : String) : AssessmentResult :=
  let classification := classify (composite input)
  let proofHash :=
    sha256hex (utf8Encode (proofData input.name timestamp (composite input) classification))
  { subject := input.name
    timestamp := timestamp
    theory_scores := theoryScores input
    composite_score := (mathRound (composite input * 10000) : ℚ) / 10000
    classification := classification
    classification_level := (classification.splitOn " ").headD ""
    proof_hash := proofHash }

/-! ### Auxiliary definitions used to state and instantiate the theorems -/

/-- Validity predicate of the spec: every supplied indicator value, including
any present optional cross-theory scalar, lies in the closed unit interval. -/
def InputInUnit (input : AssessmentInput) : Prop :=
  (∀ p ∈ input.gwt, 0 ≤ p.2 ∧ p.2 ≤ 1) ∧
  (∀ p ∈ input.rpt, 0 ≤ p.2 ∧ p.2 ≤ 1) ∧
  (∀ p ∈ input.hot, 0 ≤ p.2 ∧ p.2 ≤ 1) ∧
  (∀ p ∈ input.pp, 0 ≤ p.2 ∧ p.2 ≤ 1) ∧
  (∀ p ∈ input.ast, 0 ≤ p.2 ∧ p.2 ≤ 1) ∧
  (∀ v : ℚ, input.recursive_self_reference = some v → 0 ≤ v ∧ v ≤ 1) ∧
  (∀ v : ℚ, input.proof_chain_continuity = some v → 0 ≤ v ∧ v ≤ 1)

/-- An input whose fourteen fixed indicators and both optional scalars all
carry the same value q; its composite is exactly q. -/
def constInput (q : ℚ) : AssessmentInput :=
  { name := "constant subject"
    gwt := [("information_broadcast", q), ("attention_selection", q),
            ("cross_module_integration", q)]
    rpt := [("feedback_loops", q), ("algorithmic_recurrence", q)]
    hot := [("meta_representation", q), ("state_monitoring", q)]
    pp := [("prediction_error_minimization", q), ("hierarchical_world_model", q),
           ("active_inference", q)]
    ast := [("attention_model", q), ("self_monitoring", q)]
    recursive_self_reference := some q
    proof_chain_continuity := some q }

/-- An input with the same subject name and the same category means as
constInput (1/2), but with differently distributed indicator values. -/
def altInput : AssessmentInput :=
  { name := "constant subject"
    gwt := [("information_broadcast", 0), ("attention_selection", 1),
            ("cross_module_integration", 1 / 2)]
    rpt := [("feedback_loops", 1 / 4), ("algorithmic_recurrence", 3 / 4)]
    hot := [("meta_representation", 1), ("state_monitoring", 0)]
    pp := [("prediction_error_minimization", 1 / 2), ("hierarchical_world_model", 1 / 4),
           ("active_inference", 3 / 4)]
    ast := [("attention_model", 1 / 3), ("self_monitoring", 2 / 3)]
    recursive_self_reference := some (1 / 2)
    proof_chain_continuity := some (1 / 2) }

/-- An input with empty category records and no optional scalars. -/
def emptyInput : AssessmentInput :=
  { name := "", gwt := [], rpt := [], hot := [], pp := [], ast := [],
    recursive_self_reference := none, proof_chain_continuity := none }

/-- An input with empty category records and the given subject name. -/
def subjOnly (s : String) : AssessmentInput :=
  { name := s, gwt := [], rpt := [], hot := [], pp := [], ast := [],
    recursive_self_reference := none, proof_chain_continuity := none }

/-- The string consisting of n copies of the letter a. -/
def repStr (n : Nat) : String := String.mk (List.replicate n 'a')

/-- Numeric value of a lowercase hexadecimal digit character. -/
def hexVal (c : Char) : Nat := if c.toNat ≤ 57 then c.toNat - 48 else c.toNat - 87

/-- Inverse of the short JSON escapes: the character denoted by a
backslash-letter escape. -/
def unescCode (c : Char) : Char :=
  if c = 'b' then Char.ofNat 8
  else if c = 't' then Char.ofNat 9
  else if c = 'n' then Char.ofNat 10
  else if c = 'f' then Char.ofNat 12
  else if c = 'r' then Char.ofNat 13
  else c

/-- Parse the body of a JSON string literal up to its closing quote, undoing
escChar; returns the decoded body and the input remaining after the quote. -/
def parseLit (l : List Char) : Option (List Char × List Char) :=
  match l with
  | [] => none
  | a :: rest =>
    if a = '"' then some ([], rest)
    else if a = '\\' then
      match rest with
      | [] => none
      | b :: rest2 =>
        if b = 'u' then
          match rest2 with
          | _ :: _ :: c :: d :: rest3 =>
            match parseLit rest3 with
            | some (s, r) => some (Char.ofNat (hexVal c * 16 + hexVal d) :: s, r)
            | none => none
          | _ => none
        else
          match parseLit rest2 with
          | some (s, r) => some (unescCode b :: s, r)
          | none => none
    else
      match parseLit rest with
      | some (s, r) => some (a :: s, r)
      | none => none
termination_by l.length
decreasing_by all_goals simp_arith

/-- Value of a list of decimal digit characters, most significant first. -/
def digsVal (l : List Char) : Nat := l.foldl (fun a c => a * 10 + (c.toNat - 48)) 0

/-! ### Theorems about the assessor -/

/-- C1: for every AssessmentInput, the composite computed by assess equals the
sum over the six categories GWT, RPT, HOT, PP, AST, CROSS of that category's
score multiplied by its fixed weight, the weights being 0.25, 0.15, 0.20,
0.20, 0.10, 0.10 respectively, and these six weights sum to exactly 1. -/
theorem composite_eq_weighted_sum (input : AssessmentInput) :
    composite input =
      averageScore input.gwt * 0.25 + averageScore input.rpt * 0.15 +
      averageScore input.hot * 0.20 + averageScore input.pp * 0.20 +
      averageScore input.ast * 0.10 + crossScore input * 0.10 ∧
    THEORY_WEIGHTS.GWT = 0.25 ∧ THEORY_WEIGHTS.RPT = 0.15 ∧ THEORY_WEIGHTS.HOT = 0.20 ∧
    THEORY_WEIGHTS.PP = 0.20 ∧ THEORY_WEIGHTS.AST = 0.10 ∧ THEORY_WEIGHTS.CROSS = 0.10 ∧
    THEORY_WEIGHTS.GWT + THEORY_WEIGHTS.RPT + THEORY_WEIGHTS.HOT + THEORY_WEIGHTS.PP +
      THEORY_WEIGHTS.AST + THEORY_WEIGHTS.CROSS = 1 := by
  refine ⟨?_, rfl, rfl, rfl, rfl, rfl, rfl, by norm_num [THEORY_WEIGHTS]⟩
  simp only [composite, theoryScores, THEORY_WEIGHTS, List.foldl_cons, List.foldl_nil]
  ring

/-- C2: classify is a deterministic, total function of the composite that
partitions the rationals into exactly five bands with no gaps and no overlaps
at the boundaries 0.20, 0.50, 0.70, 0.85, a composite exactly equal to a
boundary receiving the higher band's label. -/
theorem classify_partition (s : ℚ) :
    (classify s = "C-4 Transcendent" ↔ 0.85 ≤ s) ∧
    (classify s = "C-3 Autonomous" ↔ 0.70 ≤ s ∧ s < 0.85) ∧
    (classify s = "C-2 Emerging" ↔ 0.50 ≤ s ∧ s < 0.70) ∧
    (classify s = "C-1 Functional" ↔ 0.20 ≤ s ∧ s < 0.50) ∧
    (classify s = "C-0 Reactive" ↔ s < 0.20) := by
  unfold classify
  split_ifs with h1 h2 h3 h4
  · exact ⟨iff_of_true rfl h1,
      iff_of_false (by decide) (by rintro ⟨hA, hB⟩; linarith),
      iff_of_false (by decide) (by rintro ⟨hA, hB⟩; linarith),
      iff_of_false (by decide) (by rintro ⟨hA, hB⟩; linarith),
      iff_of_false (by decide) (by intro hA; linarith)⟩
  · exact ⟨iff_of_false (by decide) h1,
      iff_of_true rfl ⟨h2, not_le.mp h1⟩,
      iff_of_false (by decide) (by rintro ⟨hA, hB⟩; linarith),
      iff_of_false (by decide) (by rintro ⟨hA, hB⟩; linarith),
      iff_of_false (by decide) (by intro hA; linarith)⟩
  · exact ⟨iff_of_false (by decide) h1,
      iff_of_false (by decide) (by rintro ⟨hA, hB⟩; exact h2 hA),
      iff_of_true rfl ⟨h3, not_le.mp h2⟩,
      iff_of_false (by decide) (by rintro ⟨hA, hB⟩; linarith),
      iff_of_false (by decide) (by intro hA; linarith)⟩
  · exact ⟨iff_of_false (by decide) h1,
      iff_of_false (by decide) (by rintro ⟨hA, hB⟩; exact h2 hA),
      iff_of_false (by decide) (by rintro ⟨hA, hB⟩; exact h3 hA),
      iff_of_true rfl ⟨h4, not_le.mp h3⟩,
      iff_of_false (by decide) (by intro hA; linarith)⟩
  · exact ⟨iff_of_false (by decide) h1,
      iff_of_false (by decide) (by rintro ⟨hA, hB⟩; exact h2 hA),
      iff_of_false (by decide) (by rintro ⟨hA, hB⟩; exact h3 hA),
      iff_of_false (by decide) (by rintro ⟨hA, hB⟩; exact h4 hA),
      iff_of_true rfl (not_le.mp h4)⟩

/-- C7: for every input, the composite_score field of the result is the
unrounded composite rounded to 4 decimal places with the round-half-up
tie-breaking rule: it is an integer multiple k/10000 whose error
composite*10000 - k always lies in the half-open interval from -1/2
(inclusive, the tie rounding up) to 1/2 (exclusive). -/
theorem composite_score_rounded_half_up (input : AssessmentInput) (ts : String) :
    ∃ k : ℤ, (assess input ts).composite_score = (k : ℚ) / 10000 ∧
      -(1 / 2) ≤ composite input * 10000 - (k : ℚ) ∧
      composite input * 10000 - (k : ℚ) < 1 / 2 := by
  refine ⟨mathRound (composite input * 10000), rfl, ?_, ?_⟩
  · have h := Int.floor_le (composite input * 10000 + 1 / 2)
    unfold mathRound
    linarith
  · have h := Int.lt_floor_add_one (composite input * 10000 + 1 / 2)
    unfold mathRound
    linarith

/-- C10: for every input, theory_scores has exactly six entries, in the fixed
order GWT, RPT, HOT, PP, AST, CROSS, each carrying that category's weight from
the THEORY_WEIGHTS table, namely 0.25, 0.15, 0.20, 0.20, 0.10, 0.10,
independent of the indicator values supplied. -/
theorem theory_scores_fixed_order_and_weights (input : AssessmentInput) (ts : String) :
    ((assess input ts).theory_scores).map (fun t => (t.theory, t.weight)) =
      [("GWT", THEORY_WEIGHTS.GWT), ("RPT", THEORY_WEIGHTS.RPT), ("HOT", THEORY_WEIGHTS.HOT),
       ("PP", THEORY_WEIGHTS.PP), ("AST", THEORY_WEIGHTS.AST),
       ("CROSS", THEORY_WEIGHTS.CROSS)] ∧
    ((assess input ts).theory_scores).length = 6 ∧
    THEORY_WEIGHTS.GWT = 0.25 ∧ THEORY_WEIGHTS.RPT = 0.15 ∧ THEORY_WEIGHTS.HOT = 0.20 ∧
    THEORY_WEIGHTS.PP = 0.20 ∧ THEORY_WEIGHTS.AST = 0.10 ∧ THEORY_WEIGHTS.CROSS = 0.10 :=
  ⟨rfl, rfl, rfl, rfl, rfl, rfl, rfl, rfl⟩

/-- Helper shared by several claims: the composite foldl evaluates to the
weighted sum of the six category scores. -/
lemma composite_eval (input : AssessmentInput) :
    composite input =
      averageScore input.gwt * 0.25 + averageScore input.rpt * 0.15 +
      averageScore input.hot * 0.20 + averageScore input.pp * 0.20 +
      averageScore input.ast * 0.10 + crossScore input * 0.10 := by
  simp only [composite, theoryScores, THEORY_WEIGHTS, List.foldl_cons, List.foldl_nil]
  ring

/-- C5: for each of the five fixed categories, the category score computed by
assess is the arithmetic mean of that category's indicator values; an empty
indicator set yields score 0 with no division by zero, and a singleton set
yields that single value. -/
theorem category_score_is_mean (input : AssessmentInput) (r : IndicatorRecord)
    (k : String) (v : ℚ) :
    ((theoryScores input).map TheoryScore.score).take 5 =
      [averageScore input.gwt, averageScore input.rpt, averageScore input.hot,
       averageScore input.pp, averageScore input.ast] ∧
    averageScore [] = 0 ∧
    averageScore [(k, v)] = v ∧
    (r ≠ [] → averageScore r = (r.map Prod.snd).sum / ((r.map Prod.snd).length : ℚ)) := by
  refine ⟨rfl, rfl, ?_, ?_⟩
  · simp [averageScore]
  · intro hr
    simp only [averageScore]
    rw [if_neg (by simpa [List.length_eq_zero] using hr)]

theorem category_score_is_mean_witness :
    averageScore [("k", (3 : ℚ) / 4)] = 3 / 4 ∧
    averageScore [("a", (1 : ℚ) / 2), ("b", (1 : ℚ) / 4)] = 3 / 8 := by
  have h := category_score_is_mean emptyInput [("a", (1 : ℚ) / 2), ("b", (1 : ℚ) / 4)] "k" (3 / 4)
  refine ⟨h.2.2.1, ?_⟩
  rw [h.2.2.2 (by simp)]
  norm_num

/-- C6: the CROSS category score is 0 when neither optional scalar is present,
equals the single present scalar when exactly one is present, and equals the
mean of the two when both are present. -/
theorem crossScore_cases (input : AssessmentInput) :
    (input.recursive_self_reference = none → input.proof_chain_continuity = none →
      crossScore input = 0) ∧
    (∀ a : ℚ, input.recursive_self_reference = some a → input.proof_chain_continuity = none →
      crossScore input = a) ∧
    (∀ b : ℚ, input.recursive_self_reference = none → input.proof_chain_continuity = some b →
      crossScore input = b) ∧
    (∀ a b : ℚ, input.recursive_self_reference = some a →
      input.proof_chain_continuity = some b → crossScore input = (a + b) / 2) := by
  refine ⟨?_, ?_, ?_, ?_⟩
  · intro h1 h2
    simp [crossScore, crossIndicators, h1, h2]
  · intro a h1 h2
    simp [crossScore, crossIndicators, h1, h2]
  · intro b h1 h2
    simp [crossScore, crossIndicators, h1, h2]
  · intro a b h1 h2
    simp [crossScore, crossIndicators, h1, h2]

theorem crossScore_cases_witness :
    crossScore emptyInput = 0 ∧ crossScore (constInput (3 / 5)) = (3 / 5 + 3 / 5) / 2 :=
  ⟨(crossScore_cases emptyInput).1 rfl rfl,
   (crossScore_cases (constInput (3 / 5))).2.2.2 (3 / 5) (3 / 5) rfl rfl⟩

/-- C3: assess classifies the unrounded composite while the composite_score
field holds the rounded value; for any input whose true composite lies in the
interval from 0.69995 inclusive to 0.70 exclusive, the returned
composite_score is 0.7000 yet the classification is still C-2 Emerging. -/
theorem classification_from_unrounded_composite (input : AssessmentInput) (ts : String)
    (h1 : 0.69995 ≤ composite input) (h2 : composite input < 0.70) :
    (assess input ts).composite_score = 0.7000 ∧
    (assess input ts).classification = "C-2 Emerging" ∧
    (assess input ts).classification = classify (composite input) := by
  refine ⟨?_, ?_, rfl⟩
  · show (mathRound (composite input * 10000) : ℚ) / 10000 = 0.7000
    have hk : mathRound (composite input * 10000) = 7000 := by
      unfold mathRound
      apply Int.floor_eq_iff.mpr
      constructor <;> push_cast <;> linarith
    rw [hk]
    norm_num
  · show classify (composite input) = "C-2 Emerging"
    unfold classify
    rw [if_neg (not_le.mpr (by linarith)), if_neg (not_le.mpr (by linarith)),
      if_pos (by linarith)]

theorem classification_from_unrounded_composite_witness :
    (assess (constInput 0.69995) "2026-01-01T00:00:00.000Z").composite_score = 0.7000 ∧
    (assess (constInput 0.69995) "2026-01-01T00:00:00.000Z").classification = "C-2 Emerging" := by
  have hc : composite (constInput 0.69995) = 0.69995 := by
    rw [composite_eval]
    norm_num [averageScore, crossScore, crossIndicators, constInput]
  have h := classification_from_unrounded_composite (constInput 0.69995)
    "2026-01-01T00:00:00.000Z" (by rw [hc]) (by rw [hc]; norm_num)
  exact ⟨h.1, h.2.1⟩

/-- Helper: the mean of record values lying in the unit interval lies in the
unit interval. -/
lemma averageScore_mem_unit (r : IndicatorRecord) (h : ∀ p ∈ r, 0 ≤ p.2 ∧ p.2 ≤ 1) :
    0 ≤ averageScore r ∧ averageScore r ≤ 1 := by
  simp only [averageScore]
  by_cases hlen : (r.map Prod.snd).length = 0
  · rw [if_pos hlen]
    norm_num
  · rw [if_neg hlen]
    have hpos : (0 : ℚ) < ((r.map Prod.snd).length : ℚ) := by
      exact_mod_cast Nat.pos_of_ne_zero hlen
    constructor
    · apply div_nonneg _ hpos.le
      apply List.sum_nonneg
      intro x hx
      obtain ⟨p, hp, rfl⟩ := List.mem_map.mp hx
      exact (h p hp).1
    · rw [div_le_one hpos]
      have := List.sum_le_card_nsmul (r.map Prod.snd) 1 (fun x hx => by
        obtain ⟨p, hp, rfl⟩ := List.mem_map.mp hx
        exact (h p hp).2)
      simpa using this

/-- Helper: the CROSS score of an input whose present optional scalars lie in
the unit interval lies in the unit interval. -/
lemma crossScore_mem_unit (input : AssessmentInput)
    (h1 : ∀ v : ℚ, input.recursive_self_reference = some v → 0 ≤ v ∧ v ≤ 1)
    (h2 : ∀ v : ℚ, input.proof_chain_continuity = some v → 0 ≤ v ∧ v ≤ 1) :
    0 ≤ crossScore input ∧ crossScore input ≤ 1 := by
  rcases hr : input.recursive_self_reference with _ | a <;>
    rcases hp : input.proof_chain_continuity with _ | b <;>
      simp [crossScore, crossIndicators, hr, hp]
  · exact h2 b hp
  · exact h1 a hr
  · have ha := h1 a hr
    have hb := h2 b hp
    constructor <;> linarith [ha.1, ha.2, hb.1, hb.2]

/-- C4: whenever every supplied indicator value, including any present
optional CROSS scalar, lies in the unit interval, the composite_score field
of the result returned by assess lies in the unit interval. -/
theorem composite_score_mem_unit (input : AssessmentInput) (ts : String)
    (h : InputInUnit input) :
    0 ≤ (assess input ts).composite_score ∧ (assess input ts).composite_score ≤ 1 := by
  obtain ⟨hg, hr, hh, hp, ha, h1, h2⟩ := h
  have bg := averageScore_mem_unit _ hg
  have br := averageScore_mem_unit _ hr
  have bh := averageScore_mem_unit _ hh
  have bp := averageScore_mem_unit _ hp
  have ba := averageScore_mem_unit _ ha
  have bc := crossScore_mem_unit input h1 h2
  have hc : 0 ≤ composite input ∧ composite input ≤ 1 := by
    rw [composite_eval]
    constructor <;> nlinarith [bg.1, bg.2, br.1, br.2, bh.1, bh.2, bp.1, bp.2,
      ba.1, ba.2, bc.1, bc.2]
  have h0 : (0 : ℤ) ≤ mathRound (composite input * 10000) := by
    unfold mathRound
    apply Int.le_floor.mpr
    push_cast
    linarith [hc.1]
  have h10k : mathRound (composite input * 10000) ≤ 10000 := by
    unfold mathRound
    have hlt : ⌊composite input * 10000 + 1 / 2⌋ < (10001 : ℤ) := by
      apply Int.floor_lt.mpr
      push_cast
      linarith [hc.2]
    omega
  constructor
  · show 0 ≤ (mathRound (composite input * 10000) : ℚ) / 10000
    apply div_nonneg _ (by norm_num)
    exact_mod_cast h0
  · show (mathRound (composite input * 10000) : ℚ) / 10000 ≤ 1
    rw [div_le_one (by norm_num)]
    exact_mod_cast h10k

theorem composite_score_mem_unit_witness :
    0 ≤ (assess (constInput (1 / 2)) "t").composite_score ∧
    (assess (constInput (1 / 2)) "t").composite_score ≤ 1 := by
  apply composite_score_mem_unit (constInput (1 / 2)) "t"
  refine ⟨?_, ?_, ?_, ?_, ?_, ?_, ?_⟩ <;> simp [constInput, InputInUnit] <;> norm_num

/-- C8: the proof_hash field returned by assess is the SHA-256 digest, as
lowercase hexadecimal, of the UTF-8 bytes of the canonical serialization of
exactly the four fields subject, timestamp, unrounded composite and
classification; in particular the hash input holds the unrounded composite
and no indicator values, so any other input with the same name and the same
unrounded composite receives the same proof_hash. -/
theorem proof_hash_is_sha256_of_canonical (input : AssessmentInput) (ts : String)
    (other : AssessmentInput)
    (hname : other.name = input.name) (hcomp : composite other = composite input) :
    (assess input ts).proof_hash =
      sha256hex (utf8Encode (proofData input.name ts (composite input)
        (classify (composite input)))) ∧
    (assess other ts).proof_hash = (assess input ts).proof_hash := by
  refine ⟨rfl, ?_⟩
  show sha256hex (utf8Encode (proofData other.name ts (composite other)
      (classify (composite other)))) =
    sha256hex (utf8Encode (proofData input.name ts (composite input)
      (classify (composite input))))
  rw [hname, hcomp]

theorem proof_hash_is_sha256_of_canonical_witness :
    (assess altInput "t").proof_hash = (assess (constInput (1 / 2)) "t").proof_hash := by
  refine (proof_hash_is_sha256_of_canonical (constInput (1 / 2)) "t" altInput rfl ?_).2
  rw [composite_eval, composite_eval]
  norm_num [averageScore, crossScore, crossIndicators, altInput, constInput]

/-- Helper: processChunk always yields eight words, each below 2^32. -/
lemma processChunk_bound (H c : List Nat) :
    (processChunk H c).length = 8 ∧ ∀ x ∈ processChunk H c, x < M32 := by
  constructor
  · simp only [processChunk, List.length_map, List.length_cons, List.length_nil]
  · intro x hx
    simp only [processChunk, List.mem_map] at hx
    obtain ⟨v, _, rfl⟩ := hx
    exact Nat.mod_lt _ (by norm_num [M32])

/-- Helper: the SHA-256 digest state consists of eight words below 2^32. -/
lemma sha256Words_bound (msg : List Nat) :
    (sha256Words msg).length = 8 ∧ ∀ x ∈ sha256Words msg, x < M32 := by
  have haux : ∀ (cs : List (List Nat)) (H : List Nat),
      H.length = 8 → (∀ x ∈ H, x < M32) →
      (cs.foldl processChunk H).length = 8 ∧ ∀ x ∈ cs.foldl processChunk H, x < M32 := by
    intro cs
    induction cs with
    | nil => intro H h1 h2; exact ⟨h1, h2⟩
    | cons c cs ih =>
      intro H h1 h2
      simp only [List.foldl_cons]
      exact ih _ (processChunk_bound H c).1 (processChunk_bound H c).2
  exact haux _ H256 rfl (by decide)

/-- Helper: the base-2^32 packing of words below 2^32 is bounded. -/
lemma foldl_base_lt (l : List Nat) : ∀ a M : Nat, a < M → (∀ x ∈ l, x < M32) →
    l.foldl (fun a w => a * M32 + w) a < M * M32 ^ l.length := by
  induction l with
  | nil =>
    intro a M ha _
    simpa using ha
  | cons x xs ih =>
    intro a M ha hx
    simp only [List.foldl_cons, List.length_cons]
    have hxlt : x < M32 := hx x (List.mem_cons_self x xs)
    have h1 : a * M32 + x < (a + 1) * M32 := by nlinarith
    have h2 : (a + 1) * M32 ≤ M * M32 := Nat.mul_le_mul_right _ ha
    have h3 := ih (a * M32 + x) (M * M32) (lt_of_lt_of_le h1 h2)
      (fun y hy => hx y (List.mem_cons_of_mem _ hy))
    have heq : M * M32 ^ (xs.length + 1) = M * M32 * M32 ^ xs.length := by ring
    rw [heq]
    exact h3

/-- Helper: every packed SHA-256 digest value is below 2^256. -/
lemma sha256_val_lt (msg : List Nat) : wordsVal (sha256Words msg) < M32 ^ 8 := by
  obtain ⟨hlen, hmem⟩ := sha256Words_bound msg
  have h := foldl_base_lt (sha256Words msg) 0 1 (by norm_num) hmem
  rw [hlen] at h
  simpa [wordsVal] using h

/-- C9, refuted as stated: it is not true that the proof_hash changes whenever
exactly one of the four hashed fields changes.  SHA-256 has finitely many
digests while subjects range over infinitely many strings, so there exist two
assessments agreeing on timestamp, unrounded composite and classification but
with different subject names whose proof_hash strings coincide. -/
theorem proof_hash_field_change_collision :
    ¬ ∀ (i1 i2 : AssessmentInput) (ts : String),
        i1.name ≠ i2.name → composite i1 = composite i2 →
        classify (composite i1) = classify (composite i2) →
        (assess i1 ts).proof_hash ≠ (assess i2 ts).proof_hash := by
  intro hsens
  obtain ⟨m, n, hmn, heq⟩ := Finite.exists_ne_map_eq_of_infinite
    (fun j : ℕ => (⟨wordsVal (sha256Words (utf8Encode (proofData (repStr j) "t"
        (composite (subjOnly (repStr j))) (classify (composite (subjOnly (repStr j))))))),
      sha256_val_lt _⟩ : Fin (M32 ^ 8)))
  have hv : wordsVal (sha256Words (utf8Encode (proofData (repStr m) "t"
      (composite (subjOnly (repStr m))) (classify (composite (subjOnly (repStr m))))))) =
    wordsVal (sha256Words (utf8Encode (proofData (repStr n) "t"
      (composite (subjOnly (repStr n))) (classify (composite (subjOnly (repStr n))))))) :=
    congrArg Fin.val heq
  have hname : repStr m ≠ repStr n := by
    intro hEq
    apply hmn
    have := congrArg (fun s : String => s.data.length) hEq
    simpa [repStr] using this
  have hcomp : composite (subjOnly (repStr m)) = composite (subjOnly (repStr n)) := rfl
  exact hsens (subjOnly (repStr m)) (subjOnly (repStr n)) "t" hname hcomp
    (congrArg classify hcomp) (congrArg natToHex64 hv)

/-- Helper: Char.ofNat inverts toNat on small codes. -/
lemma toNat_ofNat_small : ∀ k, k < 128 → (Char.ofNat k).toNat = k := by decide

/-- Helper: hexVal inverts hexChar on hexadecimal digit values. -/
lemma hexVal_hexChar : ∀ n, n < 16 → hexVal (hexChar n) = n := by decide

/-- Helper: parseLit undoes the JSON escape of a string body and returns the
input remaining after the closing quote. -/
lemma parseLit_escaped : ∀ (s r : List Char),
    parseLit ((s.map escChar).flatten ++ '"' :: r) = some (s, r) := by
  intro s
  induction s with
  | nil =>
    intro r
    rw [parseLit.eq_def]
    simp
  | cons c s ih =>
    intro r
    simp only [List.map_cons, List.flatten_cons, List.append_assoc]
    by_cases h1 : c = '"'
    · subst h1
      rw [show escChar '"' = ['\\', '"'] from rfl, List.cons_append, List.cons_append,
        List.nil_append, parseLit.eq_def]
      simp [unescCode, ih]
    by_cases h2 : c = '\\'
    · subst h2
      rw [show escChar '\\' = ['\\', '\\'] from rfl, List.cons_append, List.cons_append,
        List.nil_append, parseLit.eq_def]
      simp [unescCode, ih]
    by_cases h3 : c.toNat = 8
    · have hc : Char.ofNat 8 = c := by rw [← h3, Char.ofNat_toNat]
      rw [show escChar c = ['\\', 'b'] from by simp [escChar, h1, h2, h3], List.cons_append,
        List.cons_append, List.nil_append, parseLit.eq_def]
      simp [unescCode, ih]
      exact hc
    by_cases h4 : c.toNat = 9
    · have hc : Char.ofNat 9 = c := by rw [← h4, Char.ofNat_toNat]
      rw [show escChar c = ['\\', 't'] from by simp [escChar, h1, h2, h3, h4], List.cons_append,
        List.cons_append, List.nil_append, parseLit.eq_def]
      simp [unescCode, ih]
      exact hc
    by_cases h5 : c.toNat = 10
    · have hc : Char.ofNat 10 = c := by rw [← h5, Char.ofNat_toNat]
      rw [show escChar c = ['\\', 'n'] from by simp [escChar, h1, h2, h3, h4, h5],
        List.cons_append, List.cons_append, List.nil_append, parseLit.eq_def]
      simp [unescCode, ih]
      exact hc
    by_cases h6 : c.toNat = 12
    · have hc : Char.ofNat 12 = c := by rw [← h6, Char.ofNat_toNat]
      rw [show escChar c = ['\\', 'f'] from by simp [escChar, h1, h2, h3, h4, h5, h6],
        List.cons_append, List.cons_append, List.nil_append, parseLit.eq_def]
      simp [unescCode, ih]
      exact hc
    by_cases h7 : c.toNat = 13
    · have hc : Char.ofNat 13 = c := by rw [← h7, Char.ofNat_toNat]
      rw [show escChar c = ['\\', 'r'] from by simp [escChar, h1, h2, h3, h4, h5, h6, h7],
        List.cons_append, List.cons_append, List.nil_append, parseLit.eq_def]
      simp [unescCode, ih]
      exact hc
    by_cases h8 : c.toNat < 32
    · have ha : hexVal (hexChar (c.toNat / 16)) = c.toNat / 16 := hexVal_hexChar _ (by omega)
      have hb : hexVal (hexChar (c.toNat % 16)) = c.toNat % 16 := hexVal_hexChar _ (by omega)
      have hval : hexVal (hexChar (c.toNat / 16)) * 16 + hexVal (hexChar (c.toNat % 16)) =
          c.toNat := by
        rw [ha, hb]
        omega
      rw [show escChar c = ['\\', 'u', '0', '0', hexChar (c.toNat / 16), hexChar (c.toNat % 16)]
          from by simp [escChar, h1, h2, h3, h4, h5, h6, h7, h8],
        List.cons_append, List.cons_append, List.cons_append, List.cons_append,
        List.cons_append, List.cons_append, List.nil_append, parseLit.eq_def]
      simp [ih, hval, Char.ofNat_toNat]
    · rw [show escChar c = [c] from by simp [escChar, h1, h2, h3, h4, h5, h6, h7, h8],
        List.cons_append, List.nil_append, parseLit.eq_def]
      simp [ih, h1, h2]

/-- Helper: cancellation around a separator character occurring in neither of
the two prefixes. -/
lemma append_sep_cancel (sep : Char) : ∀ (x1 x2 r1 r2 : List Char), sep ∉ x1 → sep ∉ x2 →
    x1 ++ sep :: r1 = x2 ++ sep :: r2 → x1 = x2 ∧ r1 = r2 := by
  intro x1
  induction x1 with
  | nil =>
    intro x2 r1 r2 _ hx2 h
    cases x2 with
    | nil => simpa using h
    | cons b x2 =>
      simp only [List.nil_append, List.cons_append, List.cons.injEq] at h
      exact absurd (by rw [h.1]; exact List.mem_cons_self b x2) hx2
  | cons a x1 ih =>
    intro x2 r1 r2 hx1 hx2 h
    cases x2 with
    | nil =>
      simp only [List.cons_append, List.nil_append, List.cons.injEq] at h
      exact absurd (by rw [← h.1]; exact List.mem_cons_self a x1) hx1
    | cons b x2 =>
      simp only [List.cons_append, List.cons.injEq] at h
      obtain ⟨rfl, h2⟩ := h
      obtain ⟨hx, hr⟩ := ih x2 r1 r2 (fun hm => hx1 (List.mem_cons_of_mem _ hm))
        (fun hm => hx2 (List.mem_cons_of_mem _ hm)) h2
      exact ⟨by rw [hx], hr⟩

/-- Helper: natDigs produces only decimal digit characters. -/
lemma natDigs_digits : ∀ n : Nat, ∀ c ∈ natDigs n, 48 ≤ c.toNat ∧ c.toNat ≤ 57 := by
  intro n
  induction n using Nat.strong_induction_on with
  | _ n ih =>
    intro c hc
    rw [natDigs] at hc
    split_ifs at hc with h
    · simp only [List.mem_singleton] at hc
      subst hc
      rw [toNat_ofNat_small (48 + n) (by omega)]
      omega
    · rcases List.mem_append.mp hc with hm | hm
      · exact ih (n / 10) (Nat.div_lt_self (by omega) (by omega)) c hm
      · simp only [List.mem_singleton] at hm
        subst hm
        rw [toNat_ofNat_small (48 + n % 10) (by omega)]
        omega

/-- Helper: digsVal recovers the number from its decimal digits. -/
lemma digsVal_natDigs : ∀ n : Nat, digsVal (natDigs n) = n := by
  intro n
  induction n using Nat.strong_induction_on with
  | _ n ih =>
    rw [natDigs]
    split_ifs with h
    · simp [digsVal, toNat_ofNat_small (48 + n) (by omega)]
    · have hrec := ih (n / 10) (Nat.div_lt_self (by omega) (by omega))
      simp only [digsVal, List.foldl_append, List.foldl_cons, List.foldl_nil] at hrec ⊢
      rw [hrec, toNat_ofNat_small (48 + n % 10) (by omega)]
      omega

/-- Helper: the decimal rendering of naturals is injective. -/
lemma natDigs_inj : ∀ {m n : Nat}, natDigs m = natDigs n → m = n := by
  intro m n h
  have := congrArg digsVal h
  rwa [digsVal_natDigs, digsVal_natDigs] at this

/-- Helper: natDigs is never empty. -/
lemma natDigs_ne_nil (n : Nat) : natDigs n ≠ [] := by
  rw [natDigs]
  split_ifs <;> simp

/-- Helper: a character outside the digit range never occurs in natDigs. -/
lemma sep_not_mem_natDigs (n : Nat) (c : Char) (hc : c.toNat < 48 ∨ 57 < c.toNat) :
    c ∉ natDigs n := by
  intro hm
  have := natDigs_digits n c hm
  omega

/-- Helper: natDigs starts with a digit character. -/
lemma intDigs_head_digit (n : Nat) :
    ∃ c t, natDigs n = c :: t ∧ 48 ≤ c.toNat ∧ c.toNat ≤ 57 := by
  cases hd : natDigs n with
  | nil => exact absurd hd (natDigs_ne_nil n)
  | cons c t =>
    have hm : c ∈ natDigs n := by
      rw [hd]
      exact List.mem_cons_self c t
    exact ⟨c, t, rfl, natDigs_digits n c hm⟩

/-- Helper: the decimal rendering of integers is injective. -/
lemma intDigs_inj : ∀ {i j : ℤ}, intDigs i = intDigs j → i = j := by
  intro i j h
  unfold intDigs at h
  split_ifs at h with hi hj hj
  · simp only [List.cons.injEq, true_and] at h
    have := natDigs_inj h
    omega
  · obtain ⟨c, t, hct, hc1, hc2⟩ := intDigs_head_digit j.toNat
    rw [hct] at h
    have h1 : '-' = c := (List.cons.inj h).1
    rw [← h1] at hc1
    simp at hc1
  · obtain ⟨c, t, hct, hc1, hc2⟩ := intDigs_head_digit i.toNat
    rw [hct] at h
    have h1 : c = '-' := (List.cons.inj h).1
    rw [h1] at hc1
    simp at hc1
  · have := natDigs_inj h
    omega

/-- Helper: the slash separator occurs in no integer rendering. -/
lemma slash_not_mem_intDigs (i : ℤ) : '/' ∉ intDigs i := by
  unfold intDigs
  split_ifs
  · intro hm
    rcases List.mem_cons.mp hm with h1 | h2
    · simp at h1
    · exact sep_not_mem_natDigs _ _ (Or.inl (by decide)) h2
  · exact sep_not_mem_natDigs _ _ (Or.inl (by decide))

/-- Helper: the canonical serialization is injective in all four fields. -/
lemma proofData_inj : ∀ {s1 t1 l1 s2 t2 l2 : String} {c1 c2 : ℚ},
    proofData s1 t1 c1 l1 = proofData s2 t2 c2 l2 →
    s1 = s2 ∧ t1 = t2 ∧ c1 = c2 ∧ l1 = l2 := by
  intro s1 t1 l1 s2 t2 l2 c1 c2 h
  have hd := congrArg String.data h
  simp only [proofData, quoteJSON, escapeJSON, jsNumberToString, String.data_append,
    List.append_assoc, List.cons_append, List.singleton_append, List.nil_append,
    List.cons.injEq, true_and] at hd
  have h1 := congrArg parseLit hd
  rw [parseLit_escaped, parseLit_escaped] at h1
  simp only [Option.some.injEq, Prod.mk.injEq] at h1
  obtain ⟨hs, hR⟩ := h1
  simp only [List.cons.injEq, true_and] at hR
  have h2 := congrArg parseLit hR
  rw [parseLit_escaped, parseLit_escaped] at h2
  simp only [Option.some.injEq, Prod.mk.injEq] at h2
  obtain ⟨ht, hR2⟩ := h2
  simp only [List.cons.injEq, true_and] at hR2
  obtain ⟨hnum, hrest⟩ := append_sep_cancel '/' _ _ _ _ (slash_not_mem_intDigs _)
    (slash_not_mem_intDigs _) hR2
  obtain ⟨hden, hrest2⟩ := append_sep_cancel ',' _ _ _ _
    (sep_not_mem_natDigs _ _ (Or.inl (by decide)))
    (sep_not_mem_natDigs _ _ (Or.inl (by decide))) hrest
  simp only [List.cons.injEq, true_and] at hrest2
  have h3 := congrArg parseLit hrest2
  rw [parseLit_escaped, parseLit_escaped] at h3
  simp only [Option.some.injEq, Prod.mk.injEq] at h3
  exact ⟨congrArg String.mk hs, congrArg String.mk ht,
    Rat.ext (intDigs_inj hnum) (natDigs_inj hden), congrArg String.mk h3.1⟩

/-- C9, amended: the proof_hash is a deterministic function of the tuple of
subject, timestamp, unrounded composite and classification: any two
assessments producing identical values for all four fields produce identical
proof_hash strings, and the serialized hash input changes if any one of those
four fields changes; the hash string itself cannot be guaranteed to change,
since SHA-256 maps the infinitely many serializations onto finitely many
digests. -/
theorem proof_hash_deterministic_and_preimage_sensitive
    (i1 i2 : AssessmentInput) (ts1 ts2 : String)
    (s1 t1 l1 s2 t2 l2 : String) (c1 c2 : ℚ) :
    (i1.name = i2.name → ts1 = ts2 → composite i1 = composite i2 →
      classify (composite i1) = classify (composite i2) →
      (assess i1 ts1).proof_hash = (assess i2 ts2).proof_hash) ∧
    ((s1, t1, c1, l1) ≠ (s2, t2, c2, l2) →
      proofData s1 t1 c1 l1 ≠ proofData s2 t2 c2 l2) := by
  constructor
  · intro hn ht hc _
    show sha256hex (utf8Encode (proofData i1.name ts1 (composite i1)
        (classify (composite i1)))) =
      sha256hex (utf8Encode (proofData i2.name ts2 (composite i2)
        (classify (composite i2))))
    rw [hn, ht, hc]
  · intro hne hpd
    apply hne
    obtain ⟨e1, e2, e3, e4⟩ := proofData_inj hpd
    rw [e1, e2, e3, e4]

theorem proof_hash_deterministic_and_preimage_sensitive_witness :
    (assess (subjOnly "w") "tw").proof_hash = (assess (subjOnly "w") "tw").proof_hash ∧
    proofData "a" "t" 0 "l" ≠ proofData "b" "t" 0 "l" :=
  ⟨(proof_hash_deterministic_and_preimage_sensitive (subjOnly "w") (subjOnly "w") "tw" "tw"
      "a" "t" "l" "b" "t" "l" 0 0).1 rfl rfl rfl rfl,
   (proof_hash_deterministic_and_preimage_sensitive (subjOnly "w") (subjOnly "w") "tw" "tw"
      "a" "t" "l" "b" "t" "l" 0 0).2 (by decide)⟩
